import Mathlib

/-!
Verification development for the transformer generator of
`graphql-codegen-fetcher` (`dist/transformer-generator.js`).

The first part embeds the generator itself: the field-shape data model,
the annotated-name stripping, the recursive code-line builder
`transformJsonFields`, the detector `hasJsonFields` and the two emitters
`generateOutputTransformer` / `generateInputTransformer`, translated
line by line from the JavaScript source.

The second part gives a value-level semantic model of the code fragments
the generator emits (JavaScript values, member access, optional chaining,
object spread, `JSON.stringify` / `JSON.parse`), used to settle the
behavioural claims about the emitted code.
-/

set_option maxRecDepth 40000
set_option linter.unusedVariables false

namespace GqlFetcher

/-! ## JavaScript string primitives

`startsWithL` / `includesL` model `String.prototype.includes` (substring
containment at any position), and `substrTo` models
`String.prototype.substring(0, n)` (with the JS clamping behaviour:
a negative end index behaves like 0, which matches truncated `Nat`
subtraction). -/

def startsWithL : List Char → List Char → Bool
  | _, [] => true
  | [], _ :: _ => false
  | c :: s, p :: ps => c == p && startsWithL s ps

def includesL (pat : List Char) : List Char → Bool
  | [] => startsWithL [] pat
  | s@(_ :: t) => startsWithL s pat || includesL pat t

def jsIncludes (s pat : String) : Bool :=
  includesL pat.data s.data

def substrTo (s : String) (n : Nat) : String :=
  ⟨s.data.take n⟩

/-! ## Field shape trees

`dist/transformer-generator.js` walks plain objects whose values are
either a marker string (scalar leaf) or a nested object of the same
shape.  `Fields` is the ordered entry list of such an object (a mutual
inductive rather than a nested `List`, so that the recursive functions
below are structurally recursive and computable by reduction); a
possibly absent tree is an `Option Fields`. -/

mutual

inductive FieldValue where
  | scalar (marker : String)
  | obj (children : Fields)

inductive Fields where
  | nil
  | fcons (key : String) (value : FieldValue) (rest : Fields)

end

/-- The entries of a `Fields` object, in order (`Object.entries`). -/
def Fields.toList : Fields → List (String × FieldValue)
  | .nil => []
  | .fcons k v rest => (k, v) :: rest.toList

/-- Concatenation of two entry lists (used to speak about an entry at an
arbitrary position of a shape object). -/
def Fields.append : Fields → Fields → Fields
  | .nil, gs => gs
  | .fcons k v rest, gs => .fcons k v (rest.append gs)

/-! ## Annotated-name stripping (source lines 51-57)

The JS loop body computes, for each key `field`:
`isMandatory = field.includes('!')`, then strips the final character;
`isArray = field.includes('[]')`, then strips two more characters;
`fieldNameSingular` drops the final character of the stripped name;
`fieldPath` appends the stripped name to the access path. -/

def isMandatoryOf (field : String) : Bool := jsIncludes field "!"

def isArrayOf (field : String) : Bool := jsIncludes field "[]"

def fieldNameOf (field : String) : String :=
  let f1 := if isMandatoryOf field then substrTo field (field.length - 1) else field
  if isArrayOf field then substrTo f1 (f1.length - 2) else f1

def fieldNameSingularOf (field : String) : String :=
  let fn := fieldNameOf field
  substrTo fn (fn.length - 1)

def fieldPathOf (path field : String) : String :=
  path ++ "." ++ fieldNameOf field

/-! ## transformJsonFields (source lines 48-76)

The JS function loops over `Object.entries(fields)` pushing line
fragments on a stack; here the loop body is `transformEntry` and the
loop is the recursion of `transformJsonFields` over the entry list.
Braces occurring in the emitted JavaScript text are written
`\x7b` / `\x7d`. -/

mutual

def transformJsonFields : Fields → String → String → List String
  | .nil, _, _ => []
  | .fcons field fieldValue rest, path, transformer =>
    transformEntry field fieldValue path transformer
      ++ transformJsonFields rest path transformer

def transformEntry : String → FieldValue → String → String → List String
  | field, fieldValue, path, transformer =>
    let fieldName := fieldNameOf field
    let fieldNameSingular := fieldNameSingularOf field
    let fieldPath := path ++ "." ++ fieldName
    match fieldValue with
    | .obj children =>
      if isArrayOf field then
        [fieldName ++ ": " ++ fieldPath ++ "?.map((" ++ fieldNameSingular ++ ") => (\x7b",
         "..." ++ fieldNameSingular ++ ","]
        ++ transformJsonFields children (fieldNameSingular ++ "?") transformer
        ++ ["\x7d)),"]
      else
        [fieldName ++ ": \x7b",
         "..." ++ fieldPath ++ ","]
        ++ transformJsonFields children (fieldPath ++ "?") transformer
        ++ ["\x7d,"]
    | .scalar marker =>
      if marker == "AWSJSON" then
        (if transformer == "parse" then
          [fieldName ++ ": " ++ fieldPath ++ " && JSON.parse(" ++ fieldPath
            ++ " as unknown as string),"]
         else [])
        ++
        (if transformer == "stringify" then
          [fieldName ++ ": " ++ fieldPath ++ " && JSON.stringify(" ++ fieldPath
            ++ " as unknown as Record<string, any>),"]
         else [])
      else []

end

/-! ## hasJsonFields (source lines 77-90)

The source's `hasJsonFields(fields)` checks `!fields` and otherwise
counts the truthy results of mapping over the entries; the recursive
call `hasJsonFields(fieldValue)` on a (necessarily present) child object
is that same count.  `hasJsonFields` below is the `Option`-accepting
entry point and the `obj` case of `hasJsonFieldsEntry` is the recursive
call with the absent-tree check (vacuously false there) already
discharged — `hasJsonFieldsEntry_obj` records that the two agree. -/

mutual

/-- The `Object.entries(fields).map(...)` of the source: one Bool per entry. -/
def hasJsonFieldsValues : Fields → List Bool
  | .nil => []
  | .fcons _ fieldValue rest => hasJsonFieldsEntry fieldValue :: hasJsonFieldsValues rest

/-- The body of the `.map` callback: recurse into objects, otherwise
compare the scalar marker with the reserved value. -/
def hasJsonFieldsEntry : FieldValue → Bool
  | .obj children => decide (0 < ((hasJsonFieldsValues children).filter (fun b => b)).length)
  | .scalar marker => marker == "AWSJSON"

end

def hasJsonFields : Option Fields → Bool
  | none => false
  | some fs => decide (0 < ((hasJsonFieldsValues fs).filter (fun b => b)).length)

/-! ## generateQueryVariablesSignature (source lines 4-6) -/

def generateQueryVariablesSignature (hasRequiredVariables : Bool)
    (operationVariablesTypes : String) : String :=
  "variables" ++ (if hasRequiredVariables then "" else "?") ++ ": " ++ operationVariablesTypes

/-! ## generateOutputTransformer (source lines 8-22) -/

structure OutputType where
  fieldName : String
  typeName : String
  fields : Option Fields

/-- The `comment` template literal of source lines 10-17 (the typos
"conatain" and "orignal" are the source's own). -/
def outputTransformerComment (operationName fieldName typeName operationResultType : String) :
    String :=
  "\n/**\n  * Output transformer function for `" ++ operationName ++ "`.\n"
  ++ "  * It extracts the `" ++ fieldName
  ++ "` field from the result and transforms it into a `" ++ typeName ++ "` object.\n"
  ++ "  * If the object contains JSON fields, it will automatically JSON parse these fields and return a new object.\n"
  ++ "  * If the object does not conatain any JSON fields, it will return the orignal object.\n"
  ++ "  * @param data " ++ operationResultType ++ " - The data returned from the GraphQL server\n"
  ++ "  * @returns " ++ typeName ++ " - The transformed data\n"
  ++ "  */"

/-- Source lines 8-22.  The unused AST parameter `node` is kept as `Unit`.
In the JSON branch the source passes the destructured `fields` directly to
`transformJsonFields`; that branch is only taken when
`hasJsonFields outputType.fields` is true, hence `fields` is present, and
`.getD .nil` realises the same object. -/
def generateOutputTransformer (node : Unit) (operationName : String)
    (operationVariablesTypes : String) (operationResultType : String)
    (hasRequiredVariables : Bool) (outputType : OutputType) : String :=
  let fieldName := outputType.fieldName
  let fields := outputType.fields
  let comment := outputTransformerComment operationName fieldName outputType.typeName
    operationResultType
  let implementation :=
    "export const " ++ operationName ++ "Output = (\x7b " ++ fieldName ++ " \x7d: "
    ++ operationResultType ++ ") => "
    ++ (if hasJsonFields fields then
          fieldName ++ " && (\x7b..." ++ fieldName ++ ", "
          ++ String.intercalate "\n" (transformJsonFields (fields.getD .nil) fieldName "parse")
          ++ " \x7d) as " ++ outputType.typeName
        else
          fieldName ++ " as " ++ outputType.typeName)
    ++ ";"
  "\n" ++ comment ++ "\n" ++ implementation

/-! ## generateInputTransformer (source lines 24-46)

`variablesType` is the mapping from variable name to resolved type
record (whose `fields` member may be absent).  A null/undefined mapping
makes line 27 (`Object.keys(variablesType).some(...)`) throw a
`TypeError`, which the embedding models with `Except.error`; note that
line 26 does **not** throw on null because `variablesType &&` shortcuts.
Interpolating the `transformJsonFields` array inside the line-41
template literal is JavaScript `Array.prototype.toString`, i.e. a
`join(',')`, while line 41's outer `.map(...).join('\n')` joins the
per-variable entries with newlines. -/

structure InputVarType where
  fields : Option Fields

/-- The `comment` template literal of source lines 28-36. -/
def inputTransformerComment (operationName operationVariablesTypes : String)
    (hasVariables : Bool) : String :=
  "\n/**\n  * Input transformer function for `" ++ operationName ++ "`.\n"
  ++ "  * It transforms the fields of the variables into JSON strings.\n"
  ++ "  * If the variables contain JSON fields, it will automatically JSON stringify these fields and return a new `variables` object.\n"
  ++ "  * If the variables do not conatain any JSON fields, it will return the orignal `variables` object.\n"
  ++ "  * If no variables are defined, the function returns `undefined`.\n"
  ++ "  * "
  ++ (if hasVariables then
        "@param variables `" ++ operationVariablesTypes ++ "` - The original variables"
      else "")
  ++ "\n  * "
  ++ (if hasVariables then
        "@returns `" ++ operationVariablesTypes ++ "` - The transformed variables"
      else "@returns `undefined`")
  ++ "\n  */"

def generateInputTransformer (node : Unit) (operationName : String)
    (operationVariablesTypes : String) (operationResultType : String)
    (hasRequiredVariables : Bool)
    (variablesType : Option (List (String × InputVarType))) : Except String String :=
  let signature := generateQueryVariablesSignature hasRequiredVariables operationVariablesTypes
  match variablesType with
  | none => .error "TypeError: Cannot convert undefined or null to object"
  | some vt =>
    let hasVariables := decide (0 < vt.length)
    let hasJson := vt.any (fun p => hasJsonFields p.2.fields)
    let comment := inputTransformerComment operationName operationVariablesTypes hasVariables
    let implementation :=
      if hasVariables then
        "export const " ++ operationName ++ "Input = (" ++ signature ++ ") => "
        ++ (if hasJson then
              "(\x7b...variables, "
              ++ String.intercalate "\n"
                  ((vt.filter (fun p => hasJsonFields p.2.fields)).map (fun p =>
                    p.1 ++ ": \x7b "
                    ++ String.intercalate ","
                        (transformJsonFields (p.2.fields.getD .nil) ("variables." ++ p.1)
                          "stringify")
                    ++ " \x7d,"))
              ++ " \x7d) as " ++ operationVariablesTypes
            else
              "variables as " ++ operationVariablesTypes)
        ++ ";"
      else
        "export const " ++ operationName ++ "Input = () => undefined;"
    .ok ("\n" ++ comment ++ "\n" ++ implementation)

/-! ## A value model of the emitted JavaScript

`Js` models the runtime values the emitted transformer functions
manipulate: `undefined`, `null`, booleans, (integer) numbers, strings,
arrays and plain objects (ordered key/value entry lists, as JavaScript
object literals produce).  A computation that can throw (a `TypeError`
from a member access on a nullish value, or a `SyntaxError` from
`JSON.parse`) is an `Except Unit` computation. -/

mutual

inductive Js where
  | undefined
  | jnull
  | bool (b : Bool)
  | num (n : Int)
  | str (s : String)
  | arr (elems : JsArr)
  | obj (entries : JsObj)

inductive JsArr where
  | anil
  | acons (head : Js) (tail : JsArr)

inductive JsObj where
  | onil
  | ocons (key : String) (val : Js) (rest : JsObj)

end

def JsArr.toList : JsArr → List Js
  | .anil => []
  | .acons x t => x :: t.toList

def JsArr.ofList : List Js → JsArr
  | [] => .anil
  | x :: t => .acons x (JsArr.ofList t)

def JsObj.toList : JsObj → List (String × Js)
  | .onil => []
  | .ocons k v t => (k, v) :: t.toList

def JsObj.ofList : List (String × Js) → JsObj
  | [] => .onil
  | (k, v) :: t => .ocons k v (JsObj.ofList t)

/-- Convenience constructors from plain lists. -/
def Js.arrL (xs : List Js) : Js := .arr (JsArr.ofList xs)

def Js.objL (es : List (String × Js)) : Js := .obj (JsObj.ofList es)

/-- JavaScript nullish-ness (`undefined` or `null`). -/
def nullish : Js → Bool
  | .undefined => true
  | .jnull => true
  | _ => false

/-- JavaScript truthiness. -/
def truthy : Js → Bool
  | .undefined => false
  | .jnull => false
  | .bool b => b
  | .num n => decide (n ≠ 0)
  | .str s => decide (s ≠ "")
  | .arr _ => true
  | .obj _ => true

/-- First entry of an object with the given key. -/
def lookupO : JsObj → String → Option Js
  | .onil, _ => none
  | .ocons k v rest, key => if k == key then some v else lookupO rest key

/-- Property read on a value that is already known not to be nullish:
objects yield the entry's value, anything else yields `undefined`. -/
def jsProp (v : Js) (k : String) : Js :=
  match v with
  | .obj es =>
    match lookupO es k with
    | some w => w
    | none => .undefined
  | _ => .undefined

/-- Member access `p.k` (for `opt = false`) or `p?.k` (for `opt = true`):
a strict access on a nullish value throws a `TypeError`, an optional
access short-circuits to `undefined`. -/
def jsMember (p : Except Unit Js) (opt : Bool) (k : String) : Except Unit Js :=
  match p with
  | .error e => .error e
  | .ok v =>
    if nullish v then (if opt then .ok .undefined else .error ()) else .ok (jsProp v k)

/-- The own-enumerable entries contributed by `...v` inside an object
literal: objects spread their entries, arrays and strings their indexed
elements, primitives and nullish values nothing. -/
def spreadEntries : Js → List (String × Js)
  | .obj es => es.toList
  | .arr xs => (xs.toList.enum.map (fun p => (Nat.repr p.1, p.2)))
  | .str s => (s.data.enum.map (fun p => (Nat.repr p.1, Js.str ⟨[p.2]⟩)))
  | _ => []

/-- Adding one `k: v` entry to an object under construction: an existing
key keeps its position and gets the new value, a new key is appended
(JavaScript object-literal semantics). -/
def insEntry : List (String × Js) → String × Js → List (String × Js)
  | [], kv => [kv]
  | e :: rest, kv => if e.1 == kv.1 then (e.1, kv.2) :: rest else e :: insEntry rest kv

/-- The object produced by an object literal whose parts contribute the
given key/value pairs in order. -/
def mkObjFrom (pairs : List (String × Js)) : Js :=
  Js.objL (pairs.foldl insEntry [])

/-! ## JSON text: a serializer and a parser over `List Char`

`serJson` models `JSON.stringify` on the `Js` values above (integers in
decimal, strings quoted with `"` and `\` escaped, arrays and objects
with no whitespace).  Divergences from JavaScript, none of which the
theorems below rely on: object entries with `undefined` values are
serialized as `null` instead of being skipped, and control characters
inside strings are not `\u`-escaped. -/

def digitChar : Nat → Char
  | 0 => '0' | 1 => '1' | 2 => '2' | 3 => '3' | 4 => '4'
  | 5 => '5' | 6 => '6' | 7 => '7' | 8 => '8' | _ => '9'

/-- Decimal digits of `n`, most significant first; the first argument is
fuel making the division recursion structural (any fuel above `n` is
enough, see `natCharsF_fuel`). -/
def natCharsF : Nat → Nat → List Char
  | 0, n => [digitChar n]
  | f + 1, n => if n < 10 then [digitChar n] else natCharsF f (n / 10) ++ [digitChar (n % 10)]

def natChars (n : Nat) : List Char := natCharsF n n

def intChars (n : Int) : List Char :=
  if n < 0 then '-' :: natChars n.natAbs else natChars n.natAbs

def escChars : List Char → List Char
  | [] => []
  | c :: rest => if c = '\"' ∨ c = '\\' then '\\' :: c :: escChars rest else c :: escChars rest

def serStrChars (s : String) : List Char :=
  '\"' :: (escChars s.data ++ ['\"'])

mutual

def serJson : Js → List Char
  | .undefined => 'n' :: 'u' :: 'l' :: 'l' :: []
  | .jnull => 'n' :: 'u' :: 'l' :: 'l' :: []
  | .bool true => 't' :: 'r' :: 'u' :: 'e' :: []
  | .bool false => 'f' :: 'a' :: 'l' :: 's' :: 'e' :: []
  | .num n => intChars n
  | .str s => serStrChars s
  | .arr xs => '[' :: (serElemsChars xs ++ [']'])
  | .obj es => '\x7b' :: (serMembersChars es ++ ['\x7d'])

def serElemsChars : JsArr → List Char
  | .anil => []
  | .acons x .anil => serJson x
  | .acons x (.acons y t) => serJson x ++ ',' :: serElemsChars (.acons y t)

def serMembersChars : JsObj → List Char
  | .onil => []
  | .ocons k v .onil => serStrChars k ++ ':' :: serJson v
  | .ocons k v (.ocons k2 v2 t) =>
    serStrChars k ++ ':' :: serJson v ++ ',' :: serMembersChars (.ocons k2 v2 t)

end

def jsonStringifySem (v : Js) : String := ⟨serJson v⟩

mutual

/-- `Js` values in the image of JSON (no `undefined` anywhere); on these
the serializer matches `JSON.stringify` and the round trip below holds. -/
def pureJson : Js → Bool
  | .undefined => false
  | .jnull => true
  | .bool _ => true
  | .num _ => true
  | .str _ => true
  | .arr xs => pureJsonElems xs
  | .obj es => pureJsonMembers es

def pureJsonElems : JsArr → Bool
  | .anil => true
  | .acons x t => pureJson x && pureJsonElems t

def pureJsonMembers : JsObj → Bool
  | .onil => true
  | .ocons _ v t => pureJson v && pureJsonMembers t

end

/-- String-body parser: consumes up to and including the closing quote,
undoing the `\"` / `\\` escapes. -/
def parseStr : List Char → Option (List Char × List Char)
  | [] => none
  | c :: r =>
    if c = '\"' then some ([], r)
    else if c = '\\' then
      match r with
      | [] => none
      | e :: r2 =>
        if e = '\"' ∨ e = '\\' then (parseStr r2).map (fun p => (e :: p.1, p.2)) else none
    else (parseStr r).map (fun p => (c :: p.1, p.2))

def digitVal (c : Char) : Nat := c.toNat - '0'.toNat

/-- Greedy decimal-digit accumulator. -/
def parseDigits : List Char → Nat → Nat × List Char
  | [], acc => (acc, [])
  | c :: r, acc =>
    if c.isDigit then parseDigits r (acc * 10 + digitVal c) else (acc, c :: r)

def parseNum : List Char → Option (Nat × List Char)
  | [] => none
  | c :: r => if c.isDigit then some (parseDigits (c :: r) 0) else none

mutual

/-- Fuel-indexed JSON parser (the fuel only bounds nesting so the mutual
recursion is structural; every theorem supplies enough of it). -/
def parseJ : Nat → List Char → Option (Js × List Char)
  | 0, _ => none
  | Nat.succ f, s =>
    match s with
    | [] => none
    | c :: r =>
      if c.isDigit then
        (parseNum (c :: r)).map (fun p => (.num (p.1 : Int), p.2))
      else if c = '-' then
        (parseNum r).map (fun p => (.num (-(p.1 : Int)), p.2))
      else if c = '\"' then (parseStr r).map (fun p => (.str ⟨p.1⟩, p.2))
      else if c = '[' then
        match r with
        | [] => none
        | c2 :: r2 =>
          if c2 = ']' then some (.arr .anil, r2)
          else (parseElems f (c2 :: r2)).map (fun p => (.arr p.1, p.2))
      else if c = '\x7b' then
        match r with
        | [] => none
        | c2 :: r2 =>
          if c2 = '\x7d' then some (.obj .onil, r2)
          else (parseMembers f (c2 :: r2)).map (fun p => (.obj p.1, p.2))
      else if startsWithL (c :: r) ('n' :: 'u' :: 'l' :: 'l' :: []) then
        some (.jnull, (c :: r).drop 4)
      else if startsWithL (c :: r) ('t' :: 'r' :: 'u' :: 'e' :: []) then
        some (.bool true, (c :: r).drop 4)
      else if startsWithL (c :: r) ('f' :: 'a' :: 'l' :: 's' :: 'e' :: []) then
        some (.bool false, (c :: r).drop 5)
      else none

/-- Array elements: `value (',' value)* ']'`, consuming the closing
bracket. -/
def parseElems : Nat → List Char → Option (JsArr × List Char)
  | 0, _ => none
  | Nat.succ f, s =>
    (parseJ f s).bind (fun p =>
      match p.2 with
      | [] => none
      | c2 :: r2 =>
        if c2 = ',' then (parseElems f r2).map (fun q => (.acons p.1 q.1, q.2))
        else if c2 = ']' then some (.acons p.1 .anil, r2)
        else none)

/-- Object members: `string ':' value (',' string ':' value)* '\x7d'`,
consuming the closing brace. -/
def parseMembers : Nat → List Char → Option (JsObj × List Char)
  | 0, _ => none
  | Nat.succ f, s =>
    match s with
    | [] => none
    | c :: r =>
      if c = '\"' then
        (parseStr r).bind (fun kp =>
          match kp.2 with
          | ':' :: r2 =>
            (parseJ f r2).bind (fun p =>
              match p.2 with
              | [] => none
              | c3 :: r3 =>
                if c3 = ',' then
                  (parseMembers f r3).map (fun q => (.ocons ⟨kp.1⟩ p.1 q.1, q.2))
                else if c3 = '\x7d' then some (.ocons ⟨kp.1⟩ p.1 .onil, r3)
                else none)
          | _ => none)
      else none

end

/-- `JSON.parse` on a whole string: enough fuel, and the text must be
consumed entirely. -/
def jsonParse (s : String) : Option Js :=
  (parseJ (s.data.length + 1) s.data).bind (fun p => if p.2 = [] then some p.1 else none)

/-! ## Value-level semantics of the emitted override lines

`encodeLeafSem` / `decodeLeafSem` are the values produced by the two
generated leaf override lines (source lines 69 and 71):
`path && JSON.stringify(path ...)` and `path && JSON.parse(path ...)` —
a falsy current value short-circuits through `&&` unchanged, otherwise
it is serialized to / parsed from JSON text (`JSON.parse` throwing on
text that is not valid JSON). -/

def encodeLeafSem (v : Js) : Js :=
  if truthy v then .str (jsonStringifySem v) else v

/-- The argument `JSON.parse` receives, as a string: the generated code
passes the wire value cast `as unknown as string`; a truthy non-string
would be coerced by JavaScript — the model only covers the primitive
coercions and rejects structured ones (which no theorem below reaches). -/
def jsToParseArg : Js → Except Unit String
  | .str s => .ok s
  | .num n => .ok ⟨intChars n⟩
  | .bool true => .ok "true"
  | .bool false => .ok "false"
  | _ => .error ()

def decodeLeafSem (v : Js) : Except Unit Js :=
  if truthy v then
    (jsToParseArg v).bind (fun s =>
      match jsonParse s with
      | some r => .ok r
      | none => .error ())
  else .ok v

/-! ## Value-level semantics of the builder's fragments

`transformFieldsSem fuel fields transformer pv opt` is the runtime
meaning of evaluating the override entries that
`transformJsonFields fields path transformer` emits, in a state where
the JavaScript expression `path` evaluates to `pv` and ends with `?`
iff `opt` (so the next member access is optional chaining):

* a nested object child (source line 63) re-reads `path.name` strictly
  (optionally, when this level is already rebased), spreads it and
  appends the recursive entries evaluated against it with safe
  navigation;
* an array child (source line 60) evaluates `path.name?.map(...)`:
  `undefined` for a nullish array, a `TypeError` for a non-array
  non-nullish value, otherwise per-element fresh objects spreading the
  element plus the recursive entries against the element variable;
* a marked leaf (source lines 69/71) evaluates the guarded
  `JSON.parse` / `JSON.stringify` line.

The fuel only makes the mutual recursion structural; every use supplies
enough of it (it is consumed once per shape-tree node). -/

mutual

def transformFieldsSem : Nat → Fields → String → Except Unit Js → Bool →
    Except Unit (List (String × Js))
  | 0, _, _, _, _ => .error ()
  | Nat.succ f, .nil, _, _, _ => .ok []
  | Nat.succ f, .fcons field fieldValue rest, transformer, pv, opt =>
    (transformEntrySem f field fieldValue transformer pv opt).bind (fun es =>
      (transformFieldsSem f rest transformer pv opt).map (fun tail => es ++ tail))

def transformEntrySem : Nat → String → FieldValue → String → Except Unit Js → Bool →
    Except Unit (List (String × Js))
  | 0, _, _, _, _, _ => .error ()
  | Nat.succ f, field, fieldValue, transformer, pv, opt =>
    let fieldName := fieldNameOf field
    let fieldVal := jsMember pv opt fieldName
    match fieldValue with
    | .obj children =>
      if isArrayOf field then
        fieldVal.bind (fun v =>
          if nullish v then .ok [(fieldName, .undefined)]
          else
            match v with
            | .arr xs =>
              (mapElemsSem f children transformer xs.toList).map (fun els =>
                [(fieldName, Js.arrL els)])
            | _ => .error ())
      else
        fieldVal.bind (fun v =>
          (transformFieldsSem f children transformer (.ok v) true).map (fun ents =>
            [(fieldName, mkObjFrom (spreadEntries v ++ ents))]))
    | .scalar marker =>
      if marker == "AWSJSON" then
        if transformer == "parse" then
          fieldVal.bind (fun v => (decodeLeafSem v).map (fun r => [(fieldName, r)]))
        else if transformer == "stringify" then
          fieldVal.map (fun v => [(fieldName, encodeLeafSem v)])
        else .ok []
      else .ok []

def mapElemsSem : Nat → Fields → String → List Js → Except Unit (List Js)
  | 0, _, _, _ => .error ()
  | Nat.succ f, _, _, [] => .ok []
  | Nat.succ f, children, transformer, e :: es =>
    (transformFieldsSem f children transformer (.ok e) true).bind (fun ents =>
      (mapElemsSem f children transformer es).map (fun tail =>
        mkObjFrom (spreadEntries e ++ ents) :: tail))

end

/-! ## Value-level semantics of the emitted input transformer

`generateInputTransformerSem` is the runtime meaning of calling the
function whose text `generateInputTransformer` emits (source lines
37-44) with the value `V` bound to `variables`:

* no variables in the mapping — the zero-parameter function returns
  `undefined`;
* variables but none with JSON fields — `variables as Type` returns `V`;
* otherwise — `(\x7b...variables, v1: \x7b ... \x7d, ... \x7d)`: a fresh
  object spreading `V`, with one entry per JSON-containing variable
  whose value is an object literal holding only the transform entries
  built against the strict path `variables.<name>` (note: without a
  spread of `variables.<name>` itself). -/

def varEntriesSem (fuel : Nat) : List (String × InputVarType) → Js →
    Except Unit (List (String × Js))
  | [], _ => .ok []
  | (name, entry) :: rest, V =>
    (transformFieldsSem fuel (entry.fields.getD .nil) "stringify"
        (jsMember (.ok V) false name) false).bind (fun ents =>
      (varEntriesSem fuel rest V).map (fun tail => (name, mkObjFrom ents) :: tail))

def generateInputTransformerSem (fuel : Nat)
    (variablesType : List (String × InputVarType)) (V : Js) : Except Unit Js :=
  let hasVariables := decide (0 < variablesType.length)
  let hasJson := variablesType.any (fun p => hasJsonFields p.2.fields)
  if hasVariables then
    if hasJson then
      (varEntriesSem fuel (variablesType.filter (fun p => hasJsonFields p.2.fields)) V).map
        (fun entries => mkObjFrom (spreadEntries V ++ entries))
    else .ok V
  else .ok .undefined

/-! ## Specification-side definitions

These follow the wording of the specification (not the source) and are
compared with the source-derived definitions by the theorems below. -/

/-- A well-formed annotated field key as the data model describes it:
the base name, then the array marker, then the mandatory marker. -/
def annotKey (base : String) (arr mand : Bool) : String :=
  (base ++ (cond arr "[]" "")) ++ (cond mand "!" "")

mutual

/-- "Some Scalar leaf reachable from the tree carries the JSON-text
marker" (the reserved marker value `AWSJSON`). -/
inductive ReachesJsonLeaf : FieldValue → Prop where
  | scalarHit : ReachesJsonLeaf (.scalar "AWSJSON")
  | objHit {fs : Fields} : ReachesJsonLeafF fs → ReachesJsonLeaf (.obj fs)

/-- Some entry of the object has a reachable marked leaf. -/
inductive ReachesJsonLeafF : Fields → Prop where
  | here {k : String} {v : FieldValue} {rest : Fields} :
      ReachesJsonLeaf v → ReachesJsonLeafF (.fcons k v rest)
  | there {k : String} {v : FieldValue} {rest : Fields} :
      ReachesJsonLeafF rest → ReachesJsonLeafF (.fcons k v rest)

end

mutual

/-- Two shape trees that differ only in their keys (same structure, same
scalar markers, keys arbitrary at every level). -/
inductive SameShape : FieldValue → FieldValue → Prop where
  | scalar (m : String) : SameShape (.scalar m) (.scalar m)
  | obj {fs gs : Fields} : SameShapeF fs gs → SameShape (.obj fs) (.obj gs)

inductive SameShapeF : Fields → Fields → Prop where
  | nil : SameShapeF .nil .nil
  | fcons (k k2 : String) {v w : FieldValue} {rest rest2 : Fields} :
      SameShape v w → SameShapeF rest rest2 →
      SameShapeF (.fcons k v rest) (.fcons k2 w rest2)

end

/-! ## Size measures for parser fuel -/

mutual

def jsize : Js → Nat
  | .undefined => 1
  | .jnull => 1
  | .bool _ => 1
  | .num _ => 1
  | .str _ => 1
  | .arr xs => 1 + jsizeElems xs
  | .obj es => 1 + jsizeMembers es

def jsizeElems : JsArr → Nat
  | .anil => 0
  | .acons x t => jsize x + 1 + jsizeElems t

def jsizeMembers : JsObj → Nat
  | .onil => 0
  | .ocons _ v t => jsize v + 1 + jsizeMembers t

end

/-- Head of a character list is a decimal digit. -/
def digitHead : List Char → Bool
  | [] => false
  | c :: _ => c.isDigit

/-! # Theorems

## String and `includes` helper lemmas -/

theorem strData_append (a b : String) : (a ++ b).data = a.data ++ b.data := rfl

theorem listAppend_eq (l m : List Char) : l.append m = l ++ m := rfl

theorem strLength_data (s : String) : s.length = s.data.length := rfl

theorem strExt {a b : String} (h : a.data = b.data) : a = b := by
  cases a; cases b; exact congrArg String.mk h

theorem startsWithL_nil_pat (s : List Char) : startsWithL s [] = true := by
  cases s <;> rfl

theorem startsWithL_append_self (p m : List Char) : startsWithL (p ++ m) p = true := by
  induction p with
  | nil => exact startsWithL_nil_pat m
  | cons c t ih => simp [startsWithL, ih]

theorem includesL_of_startsWith {p s : List Char} (h : startsWithL s p = true) :
    includesL p s = true := by
  cases s with
  | nil =>
    cases p with
    | nil => rfl
    | cons c t => simp [startsWithL] at h
  | cons c t => simp [includesL, h]

theorem includesL_append_mid (p l m : List Char) : includesL p (l ++ (p ++ m)) = true := by
  induction l with
  | nil =>
    rw [List.nil_append]
    exact includesL_of_startsWith (startsWithL_append_self p m)
  | cons c t ih => simp [includesL, ih]

theorem includesL_single_append (a : Char) (l m : List Char) :
    includesL [a] (l ++ m) = (includesL [a] l || includesL [a] m) := by
  induction l with
  | nil =>
    simp only [List.nil_append, includesL, startsWithL, Bool.false_or]
  | cons c t ih =>
    cases t with
    | nil =>
      simp only [List.cons_append, List.nil_append, includesL, startsWithL,
        startsWithL_nil_pat, Bool.and_true, ih, Bool.or_assoc, Bool.or_false,
        listAppend_eq]
    | cons b u =>
      simp only [List.cons_append, includesL, startsWithL, startsWithL_nil_pat,
        Bool.and_true, Bool.or_assoc, listAppend_eq] at ih ⊢
      rw [ih]

theorem includesL_pair_append_ne (x y c : Char) (l : List Char) (h : y ≠ c) :
    includesL [x, y] (l ++ [c]) = includesL [x, y] l := by
  have hc : (c == y) = false := by
    simp only [beq_eq_false_iff_ne, ne_eq]
    exact fun hcy => h (hcy.symm)
  induction l with
  | nil =>
    simp only [List.nil_append, includesL, startsWithL, hc, Bool.and_false, Bool.false_and,
      Bool.or_false]
  | cons a t ih =>
    cases t with
    | nil =>
      simp only [List.cons_append, List.nil_append, includesL, startsWithL,
        startsWithL_nil_pat, hc, Bool.and_true, Bool.and_false, Bool.or_false]
    | cons b u =>
      simp only [List.cons_append, includesL, startsWithL, startsWithL_nil_pat,
        Bool.and_true] at ih ⊢
      rw [ih]

theorem substrTo_append_len (x t : String) : substrTo (x ++ t) x.length = x := by
  apply strExt
  show List.take x.length (x ++ t).data = x.data
  rw [strLength_data, strData_append]
  exact List.take_left x.data t.data

theorem substrTo_append (x t : String) :
    substrTo (x ++ t) ((x ++ t).length - t.length) = x := by
  have h : (x ++ t).length - t.length = x.length := by
    rw [strLength_data, strLength_data, strLength_data, strData_append,
      List.length_append, Nat.add_sub_cancel]
  rw [h]
  exact substrTo_append_len x t

theorem substrTo_bang_norm (x : String) :
    substrTo (x ++ "!") (x.length + "!".length - 1) = x := by
  rw [show ("!" : String).length = 1 from rfl, Nat.add_sub_cancel]
  exact substrTo_append_len x "!"

theorem substrTo_brackets_norm (x : String) :
    substrTo (x ++ "[]") (x.length + "[]".length - 2) = x := by
  rw [show ("[]" : String).length = 2 from rfl, Nat.add_sub_cancel]
  exact substrTo_append_len x "[]"

theorem strAppend_empty (s : String) : s ++ "" = s := by
  apply strExt; rw [strData_append]; simp

/-! ## Annotated-key stripping lemmas -/

theorem isMandatoryOf_append_bang (k : String) : isMandatoryOf (k ++ "!") = true := by
  have := includesL_append_mid ['!'] k.data []
  simpa [isMandatoryOf, jsIncludes, strData_append] using this

theorem isArrayOf_append_bang (k : String) : isArrayOf (k ++ "!") = isArrayOf k := by
  have := includesL_pair_append_ne '[' ']' '!' k.data (by decide)
  simpa [isArrayOf, jsIncludes, strData_append] using this

theorem isMandatoryOf_append_brackets (k : String) :
    isMandatoryOf (k ++ "[]") = isMandatoryOf k := by
  have := includesL_single_append '!' k.data ['[', ']']
  simpa [isMandatoryOf, jsIncludes, strData_append, includesL, startsWithL] using this

theorem isArrayOf_append_brackets (k : String) : isArrayOf (k ++ "[]") = true := by
  have := includesL_append_mid ['[', ']'] k.data []
  simpa [isArrayOf, jsIncludes, strData_append] using this

theorem isArrayOf_brackets_bang (base : String) :
    isArrayOf ((base ++ "[]") ++ "!") = true := by
  have := includesL_append_mid ['[', ']'] base.data ['!']
  simpa [isArrayOf, jsIncludes, strData_append] using this

theorem fieldNameOf_unmarked {field : String} (hm : isMandatoryOf field = false)
    (ha : isArrayOf field = false) : fieldNameOf field = field := by
  simp only [fieldNameOf, hm, ha]
  simp

theorem fieldNameOf_bang {base : String} (h2 : jsIncludes base "[]" = false) :
    fieldNameOf (base ++ "!") = base := by
  have ha : isArrayOf (base ++ "!") = false := by
    rw [isArrayOf_append_bang]; exact h2
  simp only [fieldNameOf, isMandatoryOf_append_bang, ha]
  simp [substrTo_bang_norm]

theorem fieldNameOf_brackets {base : String} (h1 : jsIncludes base "!" = false) :
    fieldNameOf (base ++ "[]") = base := by
  have hm : isMandatoryOf (base ++ "[]") = false := by
    rw [isMandatoryOf_append_brackets]; exact h1
  simp only [fieldNameOf, hm, isArrayOf_append_brackets]
  simp [substrTo_brackets_norm]

theorem substrTo_append_bang (k : String) :
    substrTo (k ++ "!") ((k ++ "!").length - 1) = k :=
  substrTo_append k "!"

theorem substrTo_append_brackets (k : String) :
    substrTo (k ++ "[]") ((k ++ "[]").length - 2) = k :=
  substrTo_append k "[]"

theorem fieldNameOf_brackets_bang (base : String) :
    fieldNameOf ((base ++ "[]") ++ "!") = base := by
  simp only [fieldNameOf, isMandatoryOf_append_bang, isArrayOf_brackets_bang, if_true]
  rw [substrTo_append_bang]
  exact substrTo_append_brackets base

/-- The computed base name of a well-formed annotated key, for each of
the four marker combinations, given that the base itself contains no
mandatory or array marker. -/
theorem fieldNameOf_annotKey (base : String) (arr mand : Bool)
    (h1 : jsIncludes base "!" = false) (h2 : jsIncludes base "[]" = false) :
    fieldNameOf (annotKey base arr mand) = base := by
  cases arr <;> cases mand
  · show fieldNameOf ((base ++ "") ++ "") = base
    rw [strAppend_empty, strAppend_empty]
    exact fieldNameOf_unmarked h1 h2
  · show fieldNameOf ((base ++ "") ++ "!") = base
    rw [strAppend_empty]
    exact fieldNameOf_bang h2
  · show fieldNameOf ((base ++ "[]") ++ "") = base
    rw [strAppend_empty]
    exact fieldNameOf_brackets h1
  · exact fieldNameOf_brackets_bang base

theorem isMandatoryOf_annotKey (base : String) (arr mand : Bool)
    (h1 : jsIncludes base "!" = false) :
    isMandatoryOf (annotKey base arr mand) = mand := by
  cases arr <;> cases mand
  · show isMandatoryOf ((base ++ "") ++ "") = false
    rw [strAppend_empty, strAppend_empty]; exact h1
  · show isMandatoryOf ((base ++ "") ++ "!") = true
    rw [strAppend_empty]; exact isMandatoryOf_append_bang base
  · show isMandatoryOf ((base ++ "[]") ++ "") = false
    rw [strAppend_empty, isMandatoryOf_append_brackets]; exact h1
  · show isMandatoryOf ((base ++ "[]") ++ "!") = true
    exact isMandatoryOf_append_bang (base ++ "[]")

theorem isArrayOf_annotKey (base : String) (arr mand : Bool)
    (h2 : jsIncludes base "[]" = false) :
    isArrayOf (annotKey base arr mand) = arr := by
  cases arr <;> cases mand
  · show isArrayOf ((base ++ "") ++ "") = false
    rw [strAppend_empty, strAppend_empty]; exact h2
  · show isArrayOf ((base ++ "") ++ "!") = false
    rw [strAppend_empty, isArrayOf_append_bang]; exact h2
  · show isArrayOf ((base ++ "[]") ++ "") = true
    rw [strAppend_empty]; exact isArrayOf_append_brackets base
  · exact isArrayOf_brackets_bang base

theorem fieldNameSingularOf_annotKey (base : String) (arr mand : Bool)
    (h1 : jsIncludes base "!" = false) (h2 : jsIncludes base "[]" = false) :
    fieldNameSingularOf (annotKey base arr mand) = substrTo base (base.length - 1) := by
  simp only [fieldNameSingularOf, fieldNameOf_annotKey base arr mand h1 h2]

theorem fieldPathOf_annotKey (path base : String) (arr mand : Bool)
    (h1 : jsIncludes base "!" = false) (h2 : jsIncludes base "[]" = false) :
    fieldPathOf path (annotKey base arr mand) = path ++ "." ++ base := by
  simp only [fieldPathOf, fieldNameOf_annotKey base arr mand h1 h2]

/-! ## Detector lemmas -/

theorem hasJsonFieldsEntry_obj_eq (children : Fields) :
    hasJsonFieldsEntry (.obj children) = hasJsonFields (some children) := rfl

theorem countPos_cons (x : Bool) (l : List Bool) :
    decide (0 < ((x :: l).filter (fun b => b)).length)
      = (x || decide (0 < (l.filter (fun b => b)).length)) := by
  cases x <;> simp [List.filter]

theorem hasJsonFields_fcons (k : String) (v : FieldValue) (rest : Fields) :
    hasJsonFields (some (.fcons k v rest))
      = (hasJsonFieldsEntry v || hasJsonFields (some rest)) := by
  simp only [hasJsonFields, hasJsonFieldsValues]
  exact countPos_cons _ _

mutual

theorem hasJsonFieldsEntry_iff : ∀ v : FieldValue,
    hasJsonFieldsEntry v = true ↔ ReachesJsonLeaf v
  | .scalar m => by
    simp only [hasJsonFieldsEntry, beq_iff_eq]
    constructor
    · intro h; subst h; exact .scalarHit
    · intro h; cases h; rfl
  | .obj ch => by
    rw [hasJsonFieldsEntry_obj_eq ch]
    constructor
    · intro h; exact .objHit ((hasJsonFieldsF_iff ch).mp h)
    · intro h
      cases h with
      | objHit hf => exact (hasJsonFieldsF_iff ch).mpr hf

theorem hasJsonFieldsF_iff : ∀ fs : Fields,
    hasJsonFields (some fs) = true ↔ ReachesJsonLeafF fs
  | .nil => by
    constructor
    · intro h; simp [hasJsonFields, hasJsonFieldsValues] at h
    · intro h; cases h
  | .fcons k v rest => by
    rw [hasJsonFields_fcons, Bool.or_eq_true]
    constructor
    · intro h
      cases h with
      | inl h => exact .here ((hasJsonFieldsEntry_iff v).mp h)
      | inr h => exact .there ((hasJsonFieldsF_iff rest).mp h)
    · intro h
      cases h with
      | here hv => exact Or.inl ((hasJsonFieldsEntry_iff v).mpr hv)
      | there hrest => exact Or.inr ((hasJsonFieldsF_iff rest).mpr hrest)

end

/-! ## Builder homomorphism and key-invariance lemmas -/

theorem transformJsonFields_append : ∀ (fs gs : Fields) (path transformer : String),
    transformJsonFields (fs.append gs) path transformer
      = transformJsonFields fs path transformer ++ transformJsonFields gs path transformer
  | .nil, gs, _, _ => rfl
  | .fcons k v rest, gs, path, transformer => by
    simp only [Fields.append, transformJsonFields,
      transformJsonFields_append rest gs path transformer, List.append_assoc]

theorem fieldNameOf_toggle {k : String} (h : jsIncludes k "!" = false) :
    fieldNameOf (k ++ "!") = fieldNameOf k := by
  have hm : isMandatoryOf k = false := h
  simp only [fieldNameOf, isMandatoryOf_append_bang, isArrayOf_append_bang, hm, if_true,
    Bool.false_eq_true, if_false, substrTo_append_bang]

theorem fieldNameSingularOf_toggle {k : String} (h : jsIncludes k "!" = false) :
    fieldNameSingularOf (k ++ "!") = fieldNameSingularOf k := by
  simp only [fieldNameSingularOf, fieldNameOf_toggle h]

theorem transformEntry_toggle {k : String} (h : jsIncludes k "!" = false)
    (v : FieldValue) (path transformer : String) :
    transformEntry (k ++ "!") v path transformer = transformEntry k v path transformer := by
  cases v <;>
    simp only [transformEntry, fieldNameOf_toggle h, fieldNameSingularOf_toggle h,
      isArrayOf_append_bang]

mutual

theorem sameShape_entry_eq : ∀ {v w : FieldValue}, SameShape v w →
    hasJsonFieldsEntry v = hasJsonFieldsEntry w
  | _, _, .scalar m => rfl
  | _, _, .obj hfs => by
    simp only [hasJsonFieldsEntry]
    rw [sameShape_values_eq hfs]

theorem sameShape_values_eq : ∀ {fs gs : Fields}, SameShapeF fs gs →
    hasJsonFieldsValues fs = hasJsonFieldsValues gs
  | _, _, .nil => rfl
  | _, _, .fcons k k2 hv hrest => by
    simp only [hasJsonFieldsValues]
    rw [sameShape_entry_eq hv, sameShape_values_eq hrest]

end

/-! ## Claim theorems -/

/-- C3: for every finite shape tree, `hasJsonFields` returns true iff
some scalar leaf reachable from the tree carries the reserved marker
value `AWSJSON`, and it returns false on an absent tree. -/
theorem json_detector_c3 :
    (∀ fs : Fields, (hasJsonFields (some fs) = true ↔ ReachesJsonLeafF fs))
    ∧ hasJsonFields none = false :=
  ⟨hasJsonFieldsF_iff, rfl⟩

/-- C3 witness: concrete evaluations of the detector through the iff. -/
theorem json_detector_c3_witness :
    ReachesJsonLeafF (.fcons "a" (.obj (.fcons "b" (.scalar "AWSJSON") .nil)) .nil)
    ∧ hasJsonFields none = false :=
  ⟨(json_detector_c3.1 _).mp rfl, json_detector_c3.2⟩

/-- C7: for every well-formed annotated field key (base name carrying no
marker text, followed by the optional array marker, followed by the
optional mandatory marker), the builder strips the trailing `!` and then
the trailing `[]`, leaving the base name, which it uses for the child
path; the array-element variable name drops the base name's final
character; in particular `"tags[]!"` yields base name `"tags"` with both
flags set. -/
theorem annotated_name_stripping_c7 (base path : String) (arr mand : Bool)
    (h1 : jsIncludes base "!" = false) (h2 : jsIncludes base "[]" = false) :
    fieldNameOf (annotKey base arr mand) = base
    ∧ isMandatoryOf (annotKey base arr mand) = mand
    ∧ isArrayOf (annotKey base arr mand) = arr
    ∧ fieldNameSingularOf (annotKey base arr mand) = substrTo base (base.length - 1)
    ∧ fieldPathOf path (annotKey base arr mand) = path ++ "." ++ base
    ∧ fieldNameOf "tags[]!" = "tags"
    ∧ isMandatoryOf "tags[]!" = true
    ∧ isArrayOf "tags[]!" = true :=
  ⟨fieldNameOf_annotKey base arr mand h1 h2,
   isMandatoryOf_annotKey base arr mand h1,
   isArrayOf_annotKey base arr mand h2,
   fieldNameSingularOf_annotKey base arr mand h1 h2,
   fieldPathOf_annotKey path base arr mand h1 h2,
   rfl, rfl, rfl⟩

/-- C7 witness: the fully annotated key `tags[]!` at concrete input. -/
theorem annotated_name_stripping_c7_witness :
    (jsIncludes "tags" "!" = false ∧ jsIncludes "tags" "[]" = false)
    ∧ fieldNameOf (annotKey "tags" true true) = "tags"
    ∧ isMandatoryOf (annotKey "tags" true true) = true
    ∧ isArrayOf (annotKey "tags" true true) = true :=
  ⟨⟨rfl, rfl⟩,
   (annotated_name_stripping_c7 "tags" "variables" true true rfl rfl).1,
   (annotated_name_stripping_c7 "tags" "variables" true true rfl rfl).2.1,
   (annotated_name_stripping_c7 "tags" "variables" true true rfl rfl).2.2.1⟩

/-- C10: the builder's emitted fragments are invariant under toggling a
trailing mandatory marker on a key (at any position of the children
mapping), and the detector's result is invariant under any renaming of
keys at any depth. -/
theorem key_invariance_c10 :
    (∀ (k : String) (v : FieldValue) (fs1 fs2 : Fields) (path transformer : String),
        jsIncludes k "!" = false →
        transformJsonFields (fs1.append (.fcons (k ++ "!") v fs2)) path transformer
          = transformJsonFields (fs1.append (.fcons k v fs2)) path transformer)
    ∧ (∀ fs gs : Fields, SameShapeF fs gs →
        hasJsonFields (some fs) = hasJsonFields (some gs)) := by
  constructor
  · intro k v fs1 fs2 path transformer h
    rw [transformJsonFields_append, transformJsonFields_append]
    simp only [transformJsonFields, transformEntry_toggle h]
  · intro fs gs h
    simp only [hasJsonFields]
    rw [sameShape_values_eq h]

/-- C10 witness: toggling `!` on a leaf key, and renaming a key. -/
theorem key_invariance_c10_witness :
    jsIncludes "payload" "!" = false
    ∧ transformJsonFields
        (Fields.nil.append (.fcons ("payload" ++ "!") (.scalar "AWSJSON") .nil))
        "variables.v" "stringify"
      = transformJsonFields
          (Fields.nil.append (.fcons "payload" (.scalar "AWSJSON") .nil))
          "variables.v" "stringify"
    ∧ hasJsonFields (some (.fcons "a" (.scalar "AWSJSON") .nil))
        = hasJsonFields (some (.fcons "zzz" (.scalar "AWSJSON") .nil)) :=
  ⟨rfl,
   key_invariance_c10.1 "payload" (.scalar "AWSJSON") .nil .nil "variables.v" "stringify" rfl,
   key_invariance_c10.2 _ _
     (.fcons "a" "zzz" (.scalar "AWSJSON") .nil)⟩

/-- C6: for an Object child with the array marker, the builder emits a
null-safe map over the array at the child path — each element a fresh
object spreading the element plus the recursive fragments against the
element variable, the recursive path rebased with a trailing `?` — and
at the value level a nullish array yields a nullish result, not an
error. -/
theorem array_child_c6 (base : String) (mand : Bool) (ch : Fields)
    (path transformer : String)
    (h1 : jsIncludes base "!" = false) (h2 : jsIncludes base "[]" = false) :
    (transformJsonFields (.fcons (annotKey base true mand) (.obj ch) .nil) path transformer
      = [base ++ ": " ++ (path ++ "." ++ base) ++ "?.map(("
           ++ substrTo base (base.length - 1) ++ ") => (\x7b",
         "..." ++ substrTo base (base.length - 1) ++ ","]
        ++ transformJsonFields ch (substrTo base (base.length - 1) ++ "?") transformer
        ++ ["\x7d)),"])
    ∧ (∀ (f : Nat) (pv : Except Unit Js) (opt : Bool) (w : Js),
        jsMember pv opt base = .ok w → nullish w = true →
        transformEntrySem (f + 1) (annotKey base true mand) (.obj ch) transformer pv opt
          = .ok [(base, .undefined)]) := by
  constructor
  · simp only [transformJsonFields, transformEntry,
      fieldNameOf_annotKey base true mand h1 h2,
      fieldNameSingularOf_annotKey base true mand h1 h2,
      isArrayOf_annotKey base true mand h2, if_true, List.append_nil]
  · intro f pv opt w hm hw
    simp only [transformEntrySem, fieldNameOf_annotKey base true mand h1 h2,
      isArrayOf_annotKey base true mand h2, if_true, hm, Except.bind, hw]

/-- C6 witness: the shape of Example C at concrete inputs, and a nullish
array value mapping to `undefined`. -/
theorem array_child_c6_witness :
    (jsIncludes "items" "!" = false ∧ jsIncludes "items" "[]" = false)
    ∧ ((transformJsonFields
          (.fcons (annotKey "items" true false)
            (.obj (.fcons "meta" (.scalar "AWSJSON") .nil)) .nil) "data" "parse"
        = ["items" ++ ": " ++ ("data" ++ "." ++ "items") ++ "?.map(("
             ++ substrTo "items" ("items".length - 1) ++ ") => (\x7b",
           "..." ++ substrTo "items" ("items".length - 1) ++ ","]
          ++ transformJsonFields (.fcons "meta" (.scalar "AWSJSON") .nil)
              (substrTo "items" ("items".length - 1) ++ "?") "parse"
          ++ ["\x7d)),"])
      ∧ (∀ (f : Nat) (pv : Except Unit Js) (opt : Bool) (w : Js),
          jsMember pv opt "items" = .ok w → nullish w = true →
          transformEntrySem (f + 1) (annotKey "items" true false)
              (.obj (.fcons "meta" (.scalar "AWSJSON") .nil)) "parse" pv opt
            = .ok [("items", .undefined)]))
    ∧ transformEntrySem (5 + 1) (annotKey "items" true false)
        (.obj (.fcons "meta" (.scalar "AWSJSON") .nil)) "parse" (.ok (Js.objL [])) false
      = .ok [("items", .undefined)] :=
  ⟨⟨rfl, rfl⟩,
   array_child_c6 "items" false (.fcons "meta" (.scalar "AWSJSON") .nil) "data" "parse" rfl rfl,
   (array_child_c6 "items" false (.fcons "meta" (.scalar "AWSJSON") .nil) "data" "parse"
      rfl rfl).2 5 (.ok (Js.objL [])) false .undefined rfl rfl⟩

/-- C4: when the output shape has no JSON fields the emitted body is
exactly the destructured root field cast to the result type name (no
override object, no transform lines); when it has JSON fields the body
is the root field guarded by `&&`, a fresh object spreading it plus the
builder's decode-direction fragments, cast to the result type name. -/
theorem output_transformer_branches_c4 (node : Unit)
    (operationName operationVariablesTypes operationResultType : String)
    (hasRequiredVariables : Bool) (outputType : OutputType) :
    (hasJsonFields outputType.fields = false →
      generateOutputTransformer node operationName operationVariablesTypes
          operationResultType hasRequiredVariables outputType
        = "\n" ++ outputTransformerComment operationName outputType.fieldName
            outputType.typeName operationResultType ++ "\n"
          ++ ("export const " ++ operationName ++ "Output = (\x7b " ++ outputType.fieldName
              ++ " \x7d: " ++ operationResultType ++ ") => "
              ++ (outputType.fieldName ++ " as " ++ outputType.typeName) ++ ";"))
    ∧ (hasJsonFields outputType.fields = true →
      generateOutputTransformer node operationName operationVariablesTypes
          operationResultType hasRequiredVariables outputType
        = "\n" ++ outputTransformerComment operationName outputType.fieldName
            outputType.typeName operationResultType ++ "\n"
          ++ ("export const " ++ operationName ++ "Output = (\x7b " ++ outputType.fieldName
              ++ " \x7d: " ++ operationResultType ++ ") => "
              ++ (outputType.fieldName ++ " && (\x7b..." ++ outputType.fieldName ++ ", "
                  ++ String.intercalate "\n"
                      (transformJsonFields (outputType.fields.getD .nil)
                        outputType.fieldName "parse")
                  ++ " \x7d) as " ++ outputType.typeName) ++ ";")) := by
  constructor
  · intro h
    simp only [generateOutputTransformer, h, Bool.false_eq_true, if_false]
  · intro h
    simp only [generateOutputTransformer, h, if_true]

/-- C4 witness: Example A (no JSON fields, pass-through cast body). -/
theorem output_transformer_branches_c4_witness :
    hasJsonFields (some (.fcons "status" (.scalar "String") .nil)) = false
    ∧ generateOutputTransformer () "GetThing" "GetThingVariables" "GetThingResult" true
        ⟨"thing", "Thing", some (.fcons "status" (.scalar "String") .nil)⟩
      = "\n" ++ outputTransformerComment "GetThing" "thing" "Thing" "GetThingResult" ++ "\n"
        ++ ("export const " ++ "GetThing" ++ "Output = (\x7b " ++ "thing"
            ++ " \x7d: " ++ "GetThingResult" ++ ") => "
            ++ ("thing" ++ " as " ++ "Thing") ++ ";") :=
  ⟨rfl,
   (output_transformer_branches_c4 () "GetThing" "GetThingVariables" "GetThingResult" true
      ⟨"thing", "Thing", some (.fcons "status" (.scalar "String") .nil)⟩).1 rfl⟩

/-- C5: for an empty variables mapping the emitted text is a
zero-parameter function returning `undefined`, and it is identical for
both values of `hasRequiredVariables`. -/
theorem input_empty_mapping_c5 (node : Unit)
    (operationName operationVariablesTypes operationResultType : String) :
    (∀ b : Bool,
      generateInputTransformer node operationName operationVariablesTypes
          operationResultType b (some [])
        = .ok ("\n" ++ inputTransformerComment operationName operationVariablesTypes false
            ++ "\n" ++ ("export const " ++ operationName ++ "Input = () => undefined;")))
    ∧ generateInputTransformer node operationName operationVariablesTypes
        operationResultType true (some [])
      = generateInputTransformer node operationName operationVariablesTypes
          operationResultType false (some []) :=
  ⟨fun b => rfl, rfl⟩

/-- C9: the input emitter returns text normally for every object-valued
variables mapping (empty included), but throws a `TypeError` for a
null/undefined mapping, because line 27 applies `Object.keys` to it
unconditionally. -/
theorem input_mapping_totality_c9 (node : Unit)
    (operationName operationVariablesTypes operationResultType : String) (b : Bool) :
    (∀ vt : List (String × InputVarType),
      ∃ s, generateInputTransformer node operationName operationVariablesTypes
          operationResultType b (some vt) = .ok s)
    ∧ generateInputTransformer node operationName operationVariablesTypes
        operationResultType b none
      = .error "TypeError: Cannot convert undefined or null to object" :=
  ⟨fun vt => ⟨_, rfl⟩, rfl⟩

/-- C1 (code bug): the generated input transformer is not null-safe at
the access paths rooted at `variables.<variableName>`.  For the variable
shape `\x7b payload: AWSJSON \x7d` the emitted line reads
`variables.v.payload` with strict member accesses on `variables` and on
`variables.v` (third conjunct: the emitted text), so calling the
generated function with the optional variable omitted (`variables = \x7b\x7d`)
or with `variables` itself `undefined` throws a `TypeError` instead of
propagating the nullish value (first two conjuncts evaluate the
value-level semantics of the emitted implementation). -/
theorem input_null_safety_c1_bug :
    generateInputTransformerSem 10
        [("v", ⟨some (.fcons "payload" (.scalar "AWSJSON") .nil)⟩)] (Js.objL [])
      = .error ()
    ∧ generateInputTransformerSem 10
        [("v", ⟨some (.fcons "payload" (.scalar "AWSJSON") .nil)⟩)] .undefined
      = .error ()
    ∧ transformJsonFields (.fcons "payload" (.scalar "AWSJSON") .nil) "variables.v" "stringify"
      = ["payload: variables.v.payload && JSON.stringify(variables.v.payload as unknown as Record<string, any>),"] :=
  ⟨rfl, rfl, rfl⟩

/-- C2 (code bug): the per-variable override object emitted by the input
transformer does not spread the original variable value, so fields of a
JSON-containing variable that get no override entry are dropped.  First
conjunct: at the value level the variable `v` with declared fields
`\x7b a: AWSJSON, b: String \x7d` and runtime value
`\x7b a: "1", b: "keep" \x7d` is replaced by an object holding only the
transformed `a` — `b` is gone.  Second conjunct: the emitted
implementation text contains the top-level spread `...variables,` but no
`...variables.v` spread inside the per-variable object. -/
theorem input_variable_spread_c2_bug :
    generateInputTransformerSem 10
        [("v", ⟨some (.fcons "a" (.scalar "AWSJSON") (.fcons "b" (.scalar "String") .nil))⟩)]
        (Js.objL [("v", Js.objL [("a", .str "1"), ("b", .str "keep")])])
      = .ok (Js.objL [("v", Js.objL [("a", .str "\"1\"")])])
    ∧ ((generateInputTransformer () "Op" "OpVariables" "OpResult" true
          (some [("v",
            ⟨some (.fcons "a" (.scalar "AWSJSON") (.fcons "b" (.scalar "String") .nil))⟩)])).map
        (fun s => (jsIncludes s "...variables,", jsIncludes s "...variables.v")))
      = .ok (true, false) :=
  ⟨rfl, rfl⟩

/-! ## JSON round-trip: digits and numbers -/

theorem digitChar_isDigit (m : Nat) : (digitChar m).isDigit = true := by
  match m with
  | 0 | 1 | 2 | 3 | 4 | 5 | 6 | 7 | 8 => rfl
  | n + 9 => rfl

theorem digitVal_digitChar (m : Nat) (h : m < 10) : digitVal (digitChar m) = m := by
  match m, h with
  | 0, _ | 1, _ | 2, _ | 3, _ | 4, _ | 5, _ | 6, _ | 7, _ | 8, _ | 9, _ => rfl

theorem isDigit_ne {c : Char} (k : Char) (h : c.isDigit = true) (hk : k.isDigit = false) :
    (c = k) = False :=
  eq_false (fun hc => by subst hc; rw [h] at hk; exact Bool.noConfusion hk)

theorem natCharsF_head (f n : Nat) : ∃ c t, natCharsF f n = c :: t ∧ c.isDigit = true := by
  induction f generalizing n with
  | zero => exact ⟨digitChar n, [], rfl, digitChar_isDigit n⟩
  | succ f ih =>
    by_cases h : n < 10
    · exact ⟨digitChar n, [], by simp [natCharsF, h], digitChar_isDigit n⟩
    · obtain ⟨c, t, he, hd⟩ := ih (n / 10)
      exact ⟨c, t ++ [digitChar (n % 10)], by simp [natCharsF, h, he], hd⟩

theorem parseDigits_stop (rest : List Char) (h : digitHead rest = false) (acc : Nat) :
    parseDigits rest acc = (acc, rest) := by
  cases rest with
  | nil => rfl
  | cons c r =>
    simp only [digitHead] at h
    simp [parseDigits, h]

theorem parseDigits_natCharsF (f : Nat) : ∀ (n : Nat), n ≤ f → ∀ (rest : List Char) (acc : Nat),
    parseDigits (natCharsF f n ++ rest) acc
      = parseDigits rest (acc * 10 ^ (natCharsF f n).length + n) := by
  induction f with
  | zero =>
    intro n hn rest acc
    interval_cases n
    simp [natCharsF, parseDigits, digitChar, digitVal]
  | succ f ih =>
    intro n hn rest acc
    by_cases h : n < 10
    · simp only [natCharsF, h, if_true, List.cons_append, List.nil_append, parseDigits,
        digitChar_isDigit n, if_true, List.length_cons, List.length_nil]
      rw [digitVal_digitChar n h]
      norm_num
    · have hdiv : n / 10 ≤ f := by
        have h1 : n / 10 < n := Nat.div_lt_self (by omega) (by omega)
        omega
      simp only [natCharsF, h, if_false, List.append_assoc, List.cons_append,
        List.nil_append]
      rw [ih (n / 10) hdiv]
      simp only [List.cons_append, parseDigits, digitChar_isDigit (n % 10), if_true]
      rw [digitVal_digitChar (n % 10) (Nat.mod_lt n (by omega))]
      rw [List.length_append, List.length_cons, List.length_nil]
      congr 1
      have hmod := Nat.div_add_mod n 10
      ring_nf
      omega

theorem parseNum_natChars (n : Nat) (rest : List Char) (hr : digitHead rest = false) :
    parseNum (natChars n ++ rest) = some (n, rest) := by
  obtain ⟨c, t, he, hd⟩ := natCharsF_head n n
  have he' : natChars n = c :: t := he
  rw [he', List.cons_append]
  simp only [parseNum, hd, if_true]
  rw [← List.cons_append, ← he']
  rw [show natChars n = natCharsF n n from rfl,
    parseDigits_natCharsF n n (le_refl n) rest 0, parseDigits_stop rest hr]
  norm_num

/-! ## JSON round-trip: strings -/

/-! ## JSON round-trip: serialized-form head characters and sizes -/

theorem intChars_head (n : Int) :
    ∃ c t, intChars n = c :: t ∧ (c.isDigit = true ∨ c = '-') := by
  by_cases hn : n < 0
  · exact ⟨'-', natChars n.natAbs, by simp [intChars, hn], Or.inr rfl⟩
  · obtain ⟨c, t, he, hd⟩ := natCharsF_head n.natAbs n.natAbs
    exact ⟨c, t, by simp [intChars, hn, natChars, he], Or.inl hd⟩

theorem serJson_head (v : Js) : ∃ c t, serJson v = c :: t ∧ (c = ']') = False := by
  cases v with
  | undefined => exact ⟨'n', _, rfl, by decide⟩
  | jnull => exact ⟨'n', _, rfl, by decide⟩
  | bool b => cases b with
    | true => exact ⟨'t', _, rfl, by decide⟩
    | false => exact ⟨'f', _, rfl, by decide⟩
  | num n =>
    obtain ⟨c, t, he, hd⟩ := intChars_head n
    refine ⟨c, t, he, ?_⟩
    cases hd with
    | inl h => exact isDigit_ne ']' h (by decide)
    | inr h => subst h; decide
  | str s => exact ⟨'\"', _, rfl, by decide⟩
  | arr xs => exact ⟨'[', _, rfl, by decide⟩
  | obj es => exact ⟨'\x7b', _, rfl, by decide⟩

theorem serJson_ne_nil (v : Js) : serJson v ≠ [] := by
  obtain ⟨c, t, he, _⟩ := serJson_head v
  rw [he]
  exact List.cons_ne_nil c t

theorem serElemsChars_head (x : Js) (xs : JsArr) :
    ∃ c t, serElemsChars (.acons x xs) = c :: t ∧ (c = ']') = False := by
  obtain ⟨c, t, he, hc⟩ := serJson_head x
  cases xs with
  | anil => exact ⟨c, t, by simp [serElemsChars, he], hc⟩
  | acons y u =>
    exact ⟨c, t ++ ',' :: serElemsChars (.acons y u), by simp [serElemsChars, he], hc⟩

theorem serMembersChars_head (k : String) (v : Js) (es : JsObj) :
    ∃ t, serMembersChars (.ocons k v es) = '\"' :: t := by
  cases es with
  | onil => exact ⟨escChars k.data ++ ['\"'] ++ ':' :: serJson v, by
      simp [serMembersChars, serStrChars]⟩
  | ocons k2 v2 u =>
    exact ⟨escChars k.data ++ ['\"'] ++ ':' :: serJson v
        ++ ',' :: serMembersChars (.ocons k2 v2 u), by
      simp [serMembersChars, serStrChars]⟩

mutual

theorem jsize_le_serLength : ∀ v : Js, jsize v ≤ (serJson v).length
  | .undefined => by simp [jsize, serJson]
  | .jnull => by simp [jsize, serJson]
  | .bool true => by simp [jsize, serJson]
  | .bool false => by simp [jsize, serJson]
  | .num n => by
    obtain ⟨c, t, he, _⟩ := intChars_head n
    simp [jsize, serJson, he]
  | .str s => by simp [jsize, serJson, serStrChars]
  | .arr xs => by
    have h := jsizeElems_le_serLength xs
    simp only [jsize, serJson, List.length_cons, List.length_append]
    omega
  | .obj es => by
    have h := jsizeMembers_le_serLength es
    simp only [jsize, serJson, List.length_cons, List.length_append]
    omega

theorem jsizeElems_le_serLength : ∀ xs : JsArr, jsizeElems xs ≤ 1 + (serElemsChars xs).length
  | .anil => by simp [jsizeElems, serElemsChars]
  | .acons x .anil => by
    have h := jsize_le_serLength x
    simp only [jsizeElems, jsizeElems.eq_1, serElemsChars]
    omega
  | .acons x (.acons y u) => by
    have h1 := jsize_le_serLength x
    have h2 := jsizeElems_le_serLength (.acons y u)
    simp only [jsizeElems] at h2
    simp only [jsizeElems, serElemsChars, List.length_append, List.length_cons]
    omega

theorem jsizeMembers_le_serLength : ∀ es : JsObj,
    jsizeMembers es ≤ 1 + (serMembersChars es).length
  | .onil => by simp [jsizeMembers, serMembersChars]
  | .ocons k v .onil => by
    have h := jsize_le_serLength v
    simp only [jsizeMembers, jsizeMembers.eq_1, serMembersChars, List.length_append,
      List.length_cons]
    omega
  | .ocons k v (.ocons k2 v2 u) => by
    have h1 := jsize_le_serLength v
    have h2 := jsizeMembers_le_serLength (.ocons k2 v2 u)
    simp only [jsizeMembers] at h2
    simp only [jsizeMembers, serMembersChars, List.length_append, List.length_cons]
    omega

end

theorem jsize_pos (v : Js) : 1 ≤ jsize v := by
  cases v <;> simp [jsize]

theorem parseStr_escChars : ∀ (cs rest : List Char),
    parseStr (escChars cs ++ ('\"' :: rest)) = some (cs, rest)
  | [], rest => by
    simp only [escChars, List.nil_append]
    unfold parseStr
    simp
  | c :: t, rest => by
    by_cases hc : c = '\"' ∨ c = '\\'
    · simp only [escChars, hc, if_true, List.cons_append]
      unfold parseStr
      simp [hc, parseStr_escChars t rest]
    · have h2 : (c = '\"') = False := eq_false (fun h => hc (Or.inl h))
      have h3 : (c = '\\') = False := eq_false (fun h => hc (Or.inr h))
      simp only [escChars, hc, if_false, List.cons_append]
      unfold parseStr
      simp [h2, h3, parseStr_escChars t rest]

/-! ## JSON round-trip: parser correctness on serialized output -/

theorem parseJ_succ_null (f : Nat) (rest : List Char) :
    parseJ (f + 1) (serJson .jnull ++ rest) = some (.jnull, rest) := by
  show parseJ (f + 1) (('n' :: 'u' :: 'l' :: 'l' :: []) ++ rest) = _
  unfold parseJ
  simp [startsWithL, startsWithL_nil_pat]

theorem parseJ_succ_true (f : Nat) (rest : List Char) :
    parseJ (f + 1) (serJson (.bool true) ++ rest) = some (.bool true, rest) := by
  show parseJ (f + 1) (('t' :: 'r' :: 'u' :: 'e' :: []) ++ rest) = _
  unfold parseJ
  simp [startsWithL, startsWithL_nil_pat]

theorem parseJ_succ_false (f : Nat) (rest : List Char) :
    parseJ (f + 1) (serJson (.bool false) ++ rest) = some (.bool false, rest) := by
  show parseJ (f + 1) (('f' :: 'a' :: 'l' :: 's' :: 'e' :: []) ++ rest) = _
  unfold parseJ
  simp [startsWithL, startsWithL_nil_pat]


theorem parseJ_succ_num (f : Nat) (n : Int) (rest : List Char) (hr : digitHead rest = false) :
    parseJ (f + 1) (serJson (.num n) ++ rest) = some (.num n, rest) := by
  by_cases hn : n < 0
  · show parseJ (f + 1) (intChars n ++ rest) = _
    rw [show intChars n = '-' :: natChars n.natAbs from by simp [intChars, hn],
      List.cons_append]
    unfold parseJ
    have hAbs : (n.natAbs : Int) = -n := by omega
    simp [parseNum_natChars n.natAbs rest hr, hAbs]
  · obtain ⟨c, t, he, hd⟩ := natCharsF_head n.natAbs n.natAbs
    have hi : intChars n = natChars n.natAbs := by simp [intChars, hn]
    have hnat : natChars n.natAbs = c :: t := he
    show parseJ (f + 1) (intChars n ++ rest) = _
    rw [hi, hnat, List.cons_append]
    unfold parseJ
    have hp2 : parseNum (c :: (t ++ rest)) = some (n.natAbs, rest) := by
      rw [← List.cons_append, ← hnat]
      exact parseNum_natChars n.natAbs rest hr
    simp [hd, hp2]
    omega

theorem parseJ_succ_str (f : Nat) (s : String) (rest : List Char) :
    parseJ (f + 1) (serJson (.str s) ++ rest) = some (.str s, rest) := by
  show parseJ (f + 1) (serStrChars s ++ rest) = _
  rw [show serStrChars s ++ rest = '\"' :: (escChars s.data ++ ('\"' :: rest)) from by
    simp [serStrChars]]
  unfold parseJ
  simp [parseStr_escChars s.data rest]

mutual

/-- The parser recovers every pure value from its serialized form (with
any non-digit-headed remainder). -/
theorem parseJ_serJson : ∀ (f : Nat) (v : Js) (rest : List Char), pureJson v = true →
    jsize v ≤ f → digitHead rest = false →
    parseJ f (serJson v ++ rest) = some (v, rest)
  | 0, v, _, _, hf, _ => by
    have := jsize_pos v
    omega
  | Nat.succ f, v, rest, hp, hf, hr => by
    cases v with
    | undefined => simp [pureJson] at hp
    | jnull => exact parseJ_succ_null f rest
    | bool b =>
      cases b with
      | false => exact parseJ_succ_false f rest
      | true => exact parseJ_succ_true f rest
    | num n => exact parseJ_succ_num f n rest hr
    | str s => exact parseJ_succ_str f s rest
    | arr xs =>
      cases xs with
      | anil =>
        show parseJ (f + 1) (('[' :: (([] : List Char) ++ [']'])) ++ rest) = _
        unfold parseJ
        simp
      | acons x t =>
        have hsz : jsizeElems (.acons x t) ≤ f := by
          have he : jsize (.arr (.acons x t)) = 1 + jsizeElems (.acons x t) := rfl
          omega
        have hpe : pureJsonElems (.acons x t) = true := hp
        have hrec := parseElems_serElems f x t rest hpe hsz
        obtain ⟨c, tl, he, hc⟩ := serElemsChars_head x t
        show parseJ (f + 1) (('[' :: (serElemsChars (.acons x t) ++ [']'])) ++ rest) = _
        rw [List.cons_append, List.append_assoc, List.singleton_append, he,
          List.cons_append]
        unfold parseJ
        have hrec2 : parseElems f (c :: (tl ++ (']' :: rest))) = some (.acons x t, rest) := by
          rw [← List.cons_append, ← he]
          exact hrec
        simp [hc, hrec2]
    | obj es =>
      cases es with
      | onil =>
        show parseJ (f + 1) (('\x7b' :: (([] : List Char) ++ ['\x7d'])) ++ rest) = _
        unfold parseJ
        simp
      | ocons k v t =>
        have hsz : jsizeMembers (.ocons k v t) ≤ f := by
          have he : jsize (.obj (.ocons k v t)) = 1 + jsizeMembers (.ocons k v t) := rfl
          omega
        have hpe : pureJsonMembers (.ocons k v t) = true := hp
        have hrec := parseMembers_serMembers f k v t rest hpe hsz
        obtain ⟨tl, he⟩ := serMembersChars_head k v t
        show parseJ (f + 1) (('\x7b' :: (serMembersChars (.ocons k v t) ++ ['\x7d'])) ++ rest)
          = _
        rw [List.cons_append, List.append_assoc, List.singleton_append, he,
          List.cons_append]
        unfold parseJ
        have hrec2 : parseMembers f ('\"' :: (tl ++ ('\x7d' :: rest)))
            = some (.ocons k v t, rest) := by
          rw [← List.cons_append, ← he]
          exact hrec
        simp [hrec2]

theorem parseElems_serElems : ∀ (f : Nat) (x : Js) (t : JsArr) (rest : List Char),
    pureJsonElems (.acons x t) = true → jsizeElems (.acons x t) ≤ f →
    parseElems f (serElemsChars (.acons x t) ++ (']' :: rest)) = some (.acons x t, rest)
  | 0, x, t, rest, hp, hf => by
    have := jsize_pos x
    simp only [jsizeElems] at hf
    omega
  | Nat.succ f, x, .anil, rest, hp, hf => by
    have hpx : pureJson x = true := by simpa [pureJsonElems] using hp
    have hsx : jsize x ≤ f := by simp only [jsizeElems] at hf; omega
    show parseElems (f + 1) (serJson x ++ (']' :: rest)) = _
    unfold parseElems
    rw [parseJ_serJson f x (']' :: rest) hpx hsx rfl]
    simp
  | Nat.succ f, x, .acons y u, rest, hp, hf => by
    have hp2 : pureJson x = true ∧ pureJsonElems (.acons y u) = true := by
      have : (pureJson x && pureJsonElems (.acons y u)) = true := hp
      simpa [Bool.and_eq_true] using this
    have hsx : jsize x ≤ f := by simp only [jsizeElems] at hf; omega
    have hst : jsizeElems (.acons y u) ≤ f := by
      have := jsize_pos x
      simp only [jsizeElems] at hf ⊢
      omega
    show parseElems (f + 1)
        ((serJson x ++ ',' :: serElemsChars (.acons y u)) ++ (']' :: rest)) = _
    rw [List.append_assoc, List.cons_append]
    unfold parseElems
    rw [parseJ_serJson f x (',' :: (serElemsChars (.acons y u) ++ (']' :: rest)))
      hp2.1 hsx rfl]
    simp [parseElems_serElems f y u rest hp2.2 hst]

theorem parseMembers_serMembers : ∀ (f : Nat) (k : String) (v : Js) (es : JsObj)
    (rest : List Char),
    pureJsonMembers (.ocons k v es) = true → jsizeMembers (.ocons k v es) ≤ f →
    parseMembers f (serMembersChars (.ocons k v es) ++ ('\x7d' :: rest))
      = some (.ocons k v es, rest)
  | 0, k, v, es, rest, hp, hf => by
    have := jsize_pos v
    simp only [jsizeMembers] at hf
    omega
  | Nat.succ f, k, v, .onil, rest, hp, hf => by
    have hpv : pureJson v = true := by simpa [pureJsonMembers] using hp
    have hsv : jsize v ≤ f := by simp only [jsizeMembers] at hf; omega
    have hps := parseStr_escChars k.data (':' :: (serJson v ++ ('\x7d' :: rest)))
    have hpj := parseJ_serJson f v ('\x7d' :: rest) hpv hsv rfl
    show parseMembers (f + 1)
        (((serStrChars k ++ ':' :: serJson v) : List Char) ++ ('\x7d' :: rest)) = _
    rw [show (serStrChars k ++ ':' :: serJson v) ++ ('\x7d' :: rest)
        = '\"' :: (escChars k.data ++ ('\"' :: (':' :: (serJson v ++ ('\x7d' :: rest)))))
      from by simp [serStrChars]]
    unfold parseMembers
    simp [hps, hpj]
  | Nat.succ f, k, v, .ocons k2 v2 u, rest, hp, hf => by
    have hp2 : pureJson v = true ∧ pureJsonMembers (.ocons k2 v2 u) = true := by
      have : (pureJson v && pureJsonMembers (.ocons k2 v2 u)) = true := hp
      simpa [Bool.and_eq_true] using this
    have hsv : jsize v ≤ f := by simp only [jsizeMembers] at hf; omega
    have hst : jsizeMembers (.ocons k2 v2 u) ≤ f := by
      have := jsize_pos v
      simp only [jsizeMembers] at hf ⊢
      omega
    have hps := parseStr_escChars k.data
      (':' :: (serJson v ++ (',' :: (serMembersChars (.ocons k2 v2 u) ++ ('\x7d' :: rest)))))
    have hpj := parseJ_serJson f v
      (',' :: (serMembersChars (.ocons k2 v2 u) ++ ('\x7d' :: rest))) hp2.1 hsv rfl
    have hrec := parseMembers_serMembers f k2 v2 u rest hp2.2 hst
    show parseMembers (f + 1)
        ((serStrChars k ++ ':' :: serJson v ++ ',' :: serMembersChars (.ocons k2 v2 u))
          ++ ('\x7d' :: rest)) = _
    rw [show (serStrChars k ++ ':' :: serJson v ++ ',' :: serMembersChars (.ocons k2 v2 u))
          ++ ('\x7d' :: rest)
        = '\"' :: (escChars k.data ++ ('\"' :: (':' :: (serJson v
            ++ (',' :: (serMembersChars (.ocons k2 v2 u) ++ ('\x7d' :: rest)))))))
      from by simp [serStrChars]]
    unfold parseMembers
    simp [hps, hpj, hrec]

end

theorem jsonParse_stringify (v : Js) (hp : pureJson v = true) :
    jsonParse (jsonStringifySem v) = some v := by
  have hlen := jsize_le_serLength v
  have h := parseJ_serJson ((serJson v).length + 1) v [] hp (by omega) rfl
  rw [List.append_nil] at h
  simp [jsonParse, jsonStringifySem, h]

/-- C8: the value produced by the generated encode override line
(`path && JSON.stringify(path ...)`), fed to the value transformation of
the generated decode override line (`path && JSON.parse(path ...)`),
yields back the original structured value: a falsy value short-circuits
both `&&` guards unchanged, and a truthy JSON-pure value is serialized
to a (truthy, non-empty) JSON text that parses back to the value. -/
theorem encode_decode_roundtrip_c8 (v : Js) (h : pureJson v = true) :
    decodeLeafSem (encodeLeafSem v) = .ok v := by
  by_cases ht : truthy v = true
  · have hne : jsonStringifySem v ≠ "" := fun hcon =>
      serJson_ne_nil v (congrArg String.data hcon)
    have htr : truthy (.str (jsonStringifySem v)) = true := by simp [truthy, hne]
    simp only [encodeLeafSem, ht, if_true, decodeLeafSem, htr, jsToParseArg]
    simp [Except.bind, jsonParse_stringify v h]
  · have ht2 : truthy v = false := by simpa using ht
    simp [encodeLeafSem, decodeLeafSem, ht2]

/-- C8 witness: a structured value containing an object, an array, a
number, null and a string survives the encode-then-decode composition. -/
theorem encode_decode_roundtrip_c8_witness :
    pureJson (Js.objL [("a", .num 1), ("b", Js.arrL [.jnull, .str "x"])]) = true
    ∧ decodeLeafSem (encodeLeafSem
        (Js.objL [("a", .num 1), ("b", Js.arrL [.jnull, .str "x"])]))
      = .ok (Js.objL [("a", .num 1), ("b", Js.arrL [.jnull, .str "x"])]) :=
  ⟨rfl, encode_decode_roundtrip_c8 _ rfl⟩

end GqlFetcher
